import Mathlib

/-!
Verification development for the `distance` repository (`src/app.py`), a
Streamlit tool that geocodes a table of addresses and reports, for each row,
the nearest temple from a reference catalog together with its distance.

The shallow embedding below translates the three core functions of
`src/app.py` — `geocode_address` (lines 69–94), `find_nearest_temple`
(lines 96–113) and `process_data` (lines 115–174) — into Lean.  Python
strings are modelled as `List Char` (sequences of code points), pandas
DataFrames as lists of records plus a column-name list, the external
`geopy` geodesic distance as an abstract function `Coord → Coord → ℚ`,
and the external Nominatim geocoder as a function `List Char → GeoResult`.
The real-time behaviour (`time.sleep(1)` and the network calls) is made
observable through an explicit event trace.
-/

namespace DistanceApp

/-- Coordinates are (latitude, longitude) pairs; Python floats are modelled
as rationals. -/
abbrev Coord := ℚ × ℚ

/-- Model of Python's regex class `\d` on `str`, which matches Unicode
decimal digits (category Nd).  The ranges occurring in this repository's
data are ASCII digits and the full-width digits U+FF10–U+FF19 used in
Japanese addresses; the claims proved below do not depend on which further
Nd ranges are included. -/
def isDecDigit (c : Char) : Bool :=
  (48 ≤ c.toNat && c.toNat ≤ 57) || (0xFF10 ≤ c.toNat && c.toNat ≤ 0xFF19)

/-- Index of the first character satisfying `p`, as `re.search(...).start()`
returns it (`none` when there is no match). -/
def firstIdx (p : Char → Bool) : List Char → Option Nat
  | [] => none
  | c :: rest => if p c then some 0 else (firstIdx p rest).map (· + 1)

/-- Model of `app.py` lines 71–76: the search address is the part of the raw address
strictly before the first decimal digit (`address[:match.start()]`), or the
whole address when `re.search(r'\d', address)` finds nothing. -/
def normalize (address : List Char) : List Char :=
  match firstIdx isDecDigit address with
  | some i => address.take i
  | none => address

/-- The two ward/town suffix markers of the fallback regex `(区|町)`. -/
def isMarker (c : Char) : Bool := c = '区' || c = '町'

/-- State machine for Python's `re.sub(r'(区|町).*', r'\1', s)` at
`app.py` line 86.  `re.sub` replaces every non-overlapping match, scanning
left to right, and `.` does not match a newline.  In mode `false`
(scanning) every character is emitted and a marker switches to mode `true`;
in mode `true` (inside the `.*` of a match, which is replaced by just the
captured marker) characters are dropped until a newline, which ends the
match and resumes scanning. -/
def subMarkersAux : Bool → List Char → List Char
  | _, [] => []
  | false, c :: rest =>
      if isMarker c then c :: subMarkersAux true rest
      else c :: subMarkersAux false rest
  | true, c :: rest =>
      if c = '\n' then c :: subMarkersAux false rest
      else subMarkersAux true rest

/-- Model of `app.py` line 86: `simplified_address = re.sub(r'(区|町).*', r'\1', search_address)`. -/
def subMarkers (s : List Char) : List Char := subMarkersAux false s

/-- Outcome of one call to the external geocoding service
(`geolocator.geocode`): a coordinate, a no-match (`None` in Python), or a
raised transport/service exception. -/
inductive GeoResult : Type
  | found (c : Coord)
  | noMatch
  | err
deriving DecidableEq

/-- Observable events of `geocode_address`: the `time.sleep` delays and the
network calls, in program order. -/
inductive Ev : Type
  | sleep (secs : Nat)
  | call (q : List Char)
deriving DecidableEq

/-- Recognizer for call events in a trace. -/
def isCall : Ev → Bool
  | Ev.call _ => true
  | _ => false

/-- Model of `app.py` lines 69–94.  Derives the search address, then inside
`try`: sleeps 1 second, geocodes the search address; on a `None` result
computes the simplified address and geocodes it; `except` catches an
exception raised by either call and yields `(search_address, None)`.
Returns the resulting `(search string, optional coordinate)` pair together
with the trace of sleep/call events the run produced. -/
def geocode_address (geo : List Char → GeoResult) (address : List Char) :
    (List Char × Option Coord) × List Ev :=
  match geo (normalize address) with
  | GeoResult.found c =>
      ((normalize address, some c), [Ev.sleep 1, Ev.call (normalize address)])
  | GeoResult.noMatch =>
      match geo (subMarkers (normalize address)) with
      | GeoResult.found c =>
          ((subMarkers (normalize address), some c),
           [Ev.sleep 1, Ev.call (normalize address),
            Ev.call (subMarkers (normalize address))])
      | GeoResult.noMatch =>
          ((normalize address, none),
           [Ev.sleep 1, Ev.call (normalize address),
            Ev.call (subMarkers (normalize address))])
      | GeoResult.err =>
          ((normalize address, none),
           [Ev.sleep 1, Ev.call (normalize address),
            Ev.call (subMarkers (normalize address))])
  | GeoResult.err =>
      ((normalize address, none), [Ev.sleep 1, Ev.call (normalize address)])

/-- A row of `temple_list_df` after `load_temple_list` and `process_data`
have run on the catalog: columns 寺院名, 住所, 検索住所 and 緯度・経度 (the
latter `None`/falsy cells modelled as `none`). -/
structure Temple : Type where
  name : String
  address : List Char
  search_address : List Char
  coordinate : Option Coord
deriving DecidableEq

/-- One update step of the minimum tracker of `find_nearest_temple`:
`none` models the initial state `min_distance = float('inf')`,
`nearest_temple_idx = None`; a candidate `(idx, distance)` displaces the
stored pair exactly when `distance < min_distance`. -/
def step (best : Option (Nat × ℚ)) (x : Nat × ℚ) : Option (Nat × ℚ) :=
  match best with
  | none => some x
  | some y => if x.2 < y.2 then some x else some y

/-- The `for idx, temple_coords in enumerate(temple_df['緯度・経度'])` loop of
`app.py` lines 104–109: entries whose coordinate cell is absent/falsy are
skipped (`if temple_coords:`), others update the minimum tracker. -/
def nearestLoop (dist : Coord → Coord → ℚ) (p : Coord) :
    Nat → Option (Nat × ℚ) → List Temple → Option (Nat × ℚ)
  | _, best, [] => best
  | idx, best, e :: es =>
      match e.coordinate with
      | none => nearestLoop dist p (idx + 1) best es
      | some c => nearestLoop dist p (idx + 1) (step best (idx, dist p c)) es

/-- Model of `app.py` lines 96–113, parameterized by the external geodesic distance
function.  Returns `(None, None)` for an absent input coordinate; otherwise
runs the scan and returns `temple_df.iloc[idx]` with the minimal distance,
or `(None, None)` when no index was recorded. -/
def find_nearest_temple (dist : Coord → Coord → ℚ) (input_coords : Option Coord)
    (temple_df : List Temple) : Option Temple × Option ℚ :=
  match input_coords with
  | none => (none, none)
  | some p =>
      match nearestLoop dist p 0 none temple_df with
      | some (i, m) => (temple_df[i]?, some m)
      | none => (none, none)

/-- The list of `(index, distance)` candidates the scan considers, i.e. the
positions with a present coordinate paired with their distance to `p`,
indices starting at `n`. -/
def candidates (dist : Coord → Coord → ℚ) (p : Coord) :
    Nat → List Temple → List (Nat × ℚ)
  | _, [] => []
  | n, e :: es =>
      match e.coordinate with
      | none => candidates dist p (n + 1) es
      | some c => (n, dist p c) :: candidates dist p (n + 1) es

/-- A row of the uploaded input table: the required columns 地点名 and 住所. -/
structure InputRecord : Type where
  name : String
  address : List Char
deriving DecidableEq

/-- The caller's input DataFrame: its column-name list together with the
values of the two required columns for each row (default `RangeIndex`, so
row labels coincide with positions). -/
structure InputTable : Type where
  columns : List String
  records : List InputRecord
deriving DecidableEq

/-- One row of the result DataFrame produced by `process_data`: the input
columns, the two columns written in place (検索住所, 緯度・経度), and the five
最寄り寺院 columns of `nearest_temple_df`, which are all `None` together when
no nearest temple was found and otherwise hold the matched catalog row and
`round(distance, 2)`. -/
structure OutputRecord : Type where
  name : String
  address : List Char
  search_address : List Char
  coordinate : Option Coord
  nearest : Option (Temple × ℚ)
deriving DecidableEq

/-- Python's `round(distance, 2)`.  (Python rounds half to even; on the
exact half-way rationals, which no claim exercises, this model rounds half
up instead.) -/
def round2 (q : ℚ) : ℚ := ((round (q * 100) : ℤ) : ℚ) / 100

/-- The fields of the per-row dict built at `app.py` lines 146–161: the
matched temple row plus the rounded distance when
`nearest_temple is not None`, otherwise all `None`.
(`find_nearest_temple` never returns a temple without a distance, see
`find_nearest_fst_some_snd_some` below, so the wildcard also covers the
unreachable `(some t, none)` shape.) -/
def templeInfo (dist : Coord → Coord → ℚ) (temples : List Temple)
    (coords : Option Coord) : Option (Temple × ℚ) :=
  match find_nearest_temple dist coords temples with
  | (some t, some d) => some (t, round2 d)
  | _ => none

/-- The per-row merged output of `process_data` as a function of the input
record. -/
def outputRow (geo : List Char → GeoResult) (dist : Coord → Coord → ℚ)
    (temples : List Temple) (r : InputRecord) : OutputRecord :=
  { name := r.name
    address := r.address
    search_address := (geocode_address geo r.address).1.1
    coordinate := (geocode_address geo r.address).1.2
    nearest := templeInfo dist temples (geocode_address geo r.address).1.2 }

/-- Model of `app.py` lines 115–174.  Phase 1 creates the 検索住所 and 緯度・経度
columns on the caller's `input_df` in place and fills them row by row with
the result of `geocode_address`; phase 2 builds `nearest_temple_data`;
`pd.concat([input_df, nearest_temple_df], axis=1)` then merges the rows
positionally.  The returned triple is: the caller's input table as it is
left after the call (its in-place mutation made explicit), the cells of the
two added columns, and the rows of `result_df`. -/
def process_data (geo : List Char → GeoResult) (dist : Coord → Coord → ℚ)
    (input : InputTable) (temples : List Temple) :
    InputTable × List (List Char × Option Coord) × List OutputRecord :=
  let geocoded := input.records.map fun r => (geocode_address geo r.address).1
  let nearest_temple_data := geocoded.map fun sc => templeInfo dist temples sc.2
  let result := (input.records.zip (geocoded.zip nearest_temple_data)).map fun x =>
    { name := x.1.name
      address := x.1.address
      search_address := x.2.1.1
      coordinate := x.2.1.2
      nearest := x.2.2 }
  (⟨input.columns ++ ["検索住所", "緯度・経度"], input.records⟩, geocoded, result)

/-- Chronological sleep/call event trace of the phase-1 geocoding loop of
`process_data`: the traces of the successive `geocode_address` calls, in
row order. -/
def process_trace (geo : List Char → GeoResult) (input : InputTable) : List Ev :=
  input.records.foldr (fun r acc => (geocode_address geo r.address).2 ++ acc) []

/-- Scans a trace and checks that at least one second of sleeping separates
every pair of successive service calls; the flag records whether a call has
been seen with no subsequent 1-second sleep yet. -/
def spacedOK : List Ev → Bool → Bool
  | [], _ => true
  | Ev.sleep n :: rest, pending => spacedOK rest (pending && n = 0)
  | Ev.call _ :: rest, pending => !pending && spacedOK rest true

/-- A trace respects the 1-second spacing between successive calls. -/
def callsSpaced (evs : List Ev) : Bool := spacedOK evs false

/-! ### Concrete instances used by witnesses and counterexamples -/

/-- A concrete stand-in for the external geodesic distance: the latitude of
the second argument (chosen kernel-computable; `Rat` addition and
subtraction do not reduce under `decide`). -/
def distC1w : Coord → Coord → ℚ := fun _ c => c.1

/-- A two-entry catalog whose second entry is strictly closer under
`distC1w`. -/
def templesC1w : List Temple :=
  [⟨"甲", "x".toList, "x".toList, some (3, 0)⟩,
   ⟨"乙", "y".toList, "y".toList, some (1, 0)⟩]

/-- A concrete stand-in distance: the longitude of the second argument. -/
def distC10w : Coord → Coord → ℚ := fun _ c => c.2

/-- A one-entry catalog with a present coordinate. -/
def templesC10a : List Temple := [⟨"丙", "z".toList, "z".toList, some (2, 5)⟩]

/-- A non-empty catalog in which every coordinate is absent. -/
def templesC10b : List Temple := [⟨"丁", "w".toList, "w".toList, none⟩]

/-- A geocoder that raises on every query. -/
def geoErrW : List Char → GeoResult := fun _ => GeoResult.err

/-- A geocoder that returns no match on every query. -/
def geoNoMatchW : List Char → GeoResult := fun _ => GeoResult.noMatch

/-- A one-row input table with only the two required columns. -/
def tableW : InputTable := ⟨["地点名", "住所"], [⟨"A", "x".toList⟩]⟩

/-- A constant stand-in distance function. -/
def distZeroW : Coord → Coord → ℚ := fun _ _ => 0

/-- A one-row input table whose address contains the 区 marker, so that the
fallback retry fires when the first attempt finds no match. -/
def tableC7w : InputTable := ⟨["地点名", "住所"], [⟨"A", "a区b".toList⟩]⟩

/-! ### Lemmas about the address normalization -/

lemma firstIdx_none_iff (p : Char → Bool) :
    ∀ l : List Char, firstIdx p l = none ↔ l.any p = false := by
  intro l
  induction l with
  | nil => simp [firstIdx]
  | cons c t ih => by_cases h : p c <;> simp [firstIdx, h, ih]

lemma firstIdx_take (p : Char → Bool) :
    ∀ (l : List Char) (i : Nat), firstIdx p l = some i →
      l.take i = l.takeWhile fun c => !p c := by
  intro l
  induction l with
  | nil => intro i h; simp [firstIdx] at h
  | cons c t ih =>
    intro i h
    by_cases hc : p c
    · simp [firstIdx, hc] at h
      subst h
      simp [List.takeWhile_cons, hc]
    · simp [firstIdx, hc] at h
      obtain ⟨j, hj, rfl⟩ := h
      simp [List.takeWhile_cons, hc, ih j hj]

lemma subMarkersAux_skip : ∀ t : List Char, '\n' ∉ t → subMarkersAux true t = [] := by
  intro t
  induction t with
  | nil => intro _; rfl
  | cons c r ih =>
    intro h
    have hc : ¬c = '\n' := by
      intro hcontra
      exact h (hcontra ▸ List.mem_cons_self c r)
    have hr : '\n' ∉ r := fun hm => h (List.mem_cons_of_mem _ hm)
    simp [subMarkersAux, hc, ih hr]

/-! ### Claims about the address normalization -/

/-- C2: for every address string, `normalize` returns the substring strictly
before the first decimal-digit character when such a character exists, and
returns the address unchanged when no digit exists; in particular it maps
"熊本県熊本市中央区坪井6丁目21" to "熊本県熊本市中央区坪井". -/
theorem claim_C2 :
    (∀ address : List Char,
        normalize address =
          if address.any isDecDigit then address.takeWhile fun c => !isDecDigit c
          else address) ∧
    normalize "熊本県熊本市中央区坪井6丁目21".toList = "熊本県熊本市中央区坪井".toList := by
  constructor
  · intro address
    unfold normalize
    cases hf : firstIdx isDecDigit address with
    | none =>
      have h0 : address.any isDecDigit = false := (firstIdx_none_iff _ _).1 hf
      simp [h0]
    | some i =>
      have ht := firstIdx_take _ _ _ hf
      have h1 : address.any isDecDigit = true := by
        cases h2 : address.any isDecDigit with
        | false => rw [(firstIdx_none_iff _ _).2 h2] at hf; cases hf
        | true => rfl
      simp [h1, ht]
  · decide

/-- C3 counterexample: the search address 町␤町 (it contains a newline)
has its first marker at index 0, so the claim predicts the truncation
(List.take 1), but `re.sub(r'(区|町).*', r'\1', ·)` leaves the string
unchanged, because `.` does not match a newline and the substitution
re-applies on the next line. -/
theorem claim_C3_counterexample :
    firstIdx isMarker ('町' :: '\n' :: '町' :: []) = some 0 ∧
    subMarkers ('町' :: '\n' :: '町' :: []) = ('町' :: '\n' :: '町' :: []) ∧
    subMarkers ('町' :: '\n' :: '町' :: []) ≠ ('町' :: '\n' :: '町' :: []).take (0 + 1) := by
  decide

/-- C3 (amended): for every newline-free search address, the fallback
normalization truncates it at the first occurrence of a marker from
{区, 町}, keeping the marker and discarding everything after it, and leaves
the search address unchanged when neither marker is present. -/
theorem claim_C3 :
    ∀ s : List Char, '\n' ∉ s →
      subMarkers s =
        match firstIdx isMarker s with
        | some i => s.take (i + 1)
        | none => s := by
  intro s h
  induction s with
  | nil => rfl
  | cons c t ih =>
    have hnotin : '\n' ∉ t := fun hm => h (List.mem_cons_of_mem _ hm)
    by_cases hm : isMarker c
    · have hskip : subMarkersAux true t = [] := subMarkersAux_skip t hnotin
      simp [subMarkers, subMarkersAux, hm, firstIdx, hskip]
    · have ih2 := ih hnotin
      rw [subMarkers] at ih2
      cases hf : firstIdx isMarker t with
      | none => simp [subMarkers, subMarkersAux, hm, firstIdx, hf, hf ▸ ih2]
      | some j => simp [subMarkers, subMarkersAux, hm, firstIdx, hf, hf ▸ ih2]

/-- C3 witness: the fallback normalization of 愛知県豊明市沓掛町山新田
truncates at the 町 marker, giving 愛知県豊明市沓掛町. -/
theorem claim_C3_witness :
    subMarkers "愛知県豊明市沓掛町山新田".toList = "愛知県豊明市沓掛町".toList := by
  have h := claim_C3 "愛知県豊明市沓掛町山新田".toList (by decide)
  rw [h]
  decide

/-! ### Lemmas about the minimum-tracking scan -/

lemma nearestLoop_eq_foldl (dist : Coord → Coord → ℚ) (p : Coord) :
    ∀ (cs : List Temple) (n : Nat) (b : Option (Nat × ℚ)),
      nearestLoop dist p n b cs = List.foldl step b (candidates dist p n cs) := by
  intro cs
  induction cs with
  | nil => intro n b; rfl
  | cons e es ih =>
    intro n b
    cases hc : e.coordinate with
    | none => simp [nearestLoop, candidates, hc, ih]
    | some c => simp [nearestLoop, candidates, hc, ih]

lemma foldl_step_isSome :
    ∀ (l : List (Nat × ℚ)) (b : Option (Nat × ℚ)),
      b.isSome → (List.foldl step b l).isSome := by
  intro l
  induction l with
  | nil => intro b h; simpa using h
  | cons x t ih =>
    intro b h
    rw [List.foldl_cons]
    apply ih
    cases b with
    | none => simp at h
    | some z => by_cases hlt : x.2 < z.2 <;> simp [step, hlt]

/-- Where the strict-minimum fold can end up: either the seed survives,
in which case no scanned candidate is strictly smaller, or the result is a
candidate that strictly beat the seed and everything before it and was not
strictly beaten by anything after it. -/
lemma foldl_step_sound :
    ∀ (l : List (Nat × ℚ)) (b : Option (Nat × ℚ)) (y : Nat × ℚ),
      List.foldl step b l = some y →
      (b = some y ∧ ∀ x ∈ l, y.2 ≤ x.2) ∨
      (∃ pre post, l = pre ++ y :: post ∧
        (∀ z : Nat × ℚ, b = some z → y.2 < z.2) ∧
        (∀ x ∈ pre, y.2 < x.2) ∧ (∀ x ∈ post, y.2 ≤ x.2)) := by
  intro l
  induction l with
  | nil =>
    intro b y h
    exact Or.inl ⟨h, by simp⟩
  | cons x t ih =>
    intro b y h
    rw [List.foldl_cons] at h
    rcases ih (step b x) y h with ⟨hb, hall⟩ | ⟨pre, post, heq, hbz, hpre, hpost⟩
    · cases b with
      | none =>
        have hx : x = y := by simpa [step] using hb
        subst hx
        exact Or.inr ⟨[], t, by simp, by simp, by simp, hall⟩
      | some z =>
        by_cases hlt : x.2 < z.2
        · have hx : x = y := by simpa [step, hlt] using hb
          subst hx
          refine Or.inr ⟨[], t, by simp, ?_, by simp, hall⟩
          intro w hw
          obtain rfl : z = w := by simpa using hw
          exact hlt
        · have hz : z = y := by simpa [step, hlt] using hb
          subst hz
          refine Or.inl ⟨rfl, ?_⟩
          intro w hw
          rcases List.mem_cons.1 hw with rfl | hw2
          · exact le_of_not_lt hlt
          · exact hall w hw2
    · refine Or.inr ⟨x :: pre, post, by simp [heq], ?_, ?_, hpost⟩
      · intro w hw
        cases b with
        | none => cases hw
        | some z =>
          obtain rfl : z = w := by simpa using hw
          by_cases hlt : x.2 < z.2
          · exact lt_trans (hbz x (by simp [step, hlt])) hlt
          · exact hbz z (by simp [step, hlt])
      · intro w hw
        rcases List.mem_cons.1 hw with rfl | hw2
        · cases b with
          | none => exact hbz w (by simp [step])
          | some z =>
            by_cases hlt : w.2 < z.2
            · exact hbz w (by simp [step, hlt])
            · exact lt_of_lt_of_le (hbz z (by simp [step, hlt])) (le_of_not_lt hlt)
        · exact hpre w hw2

/-! ### Lemmas about the candidate list -/

lemma candidates_mem (dist : Coord → Coord → ℚ) (p : Coord) :
    ∀ (cs : List Temple) (n : Nat) (x : Nat × ℚ),
      x ∈ candidates dist p n cs ↔
        ∃ k e c, cs[k]? = some e ∧ e.coordinate = some c ∧ x = (n + k, dist p c) := by
  intro cs
  induction cs with
  | nil => intro n x; simp [candidates]
  | cons e es ih =>
    intro n x
    constructor
    · intro hx
      cases hc : e.coordinate with
      | none =>
        rw [show candidates dist p n (e :: es) = candidates dist p (n + 1) es by
          simp [candidates, hc]] at hx
        obtain ⟨k, e', c', hk, hco, hxx⟩ := (ih (n + 1) x).1 hx
        refine ⟨k + 1, e', c', by simpa using hk, hco, ?_⟩
        rw [hxx]
        congr 1
        omega
      | some c =>
        rw [show candidates dist p n (e :: es)
              = (n, dist p c) :: candidates dist p (n + 1) es by
          simp [candidates, hc]] at hx
        rcases List.mem_cons.1 hx with rfl | hx2
        · exact ⟨0, e, c, by simp, hc, by simp⟩
        · obtain ⟨k, e', c', hk, hco, hxx⟩ := (ih (n + 1) x).1 hx2
          refine ⟨k + 1, e', c', by simpa using hk, hco, ?_⟩
          rw [hxx]
          congr 1
          omega
    · rintro ⟨k, e', c', hk, hco, rfl⟩
      cases k with
      | zero =>
        obtain rfl : e = e' := by simpa using hk
        rw [show candidates dist p n (e :: es)
              = (n, dist p c') :: candidates dist p (n + 1) es by
          simp [candidates, hco]]
        simp
      | succ k' =>
        have hk' : es[k']? = some e' := by simpa using hk
        have hmem : (n + 1 + k', dist p c') ∈ candidates dist p (n + 1) es :=
          (ih (n + 1) _).2 ⟨k', e', c', hk', hco, rfl⟩
        have harith : n + (k' + 1) = n + 1 + k' := by omega
        cases hc : e.coordinate with
        | none =>
          rw [show candidates dist p n (e :: es) = candidates dist p (n + 1) es by
            simp [candidates, hc]]
          rw [show ((n + (k' + 1), dist p c') : Nat × ℚ) = (n + 1 + k', dist p c') by
            rw [harith]]
          exact hmem
        | some c =>
          rw [show candidates dist p n (e :: es)
                = (n, dist p c) :: candidates dist p (n + 1) es by
            simp [candidates, hc]]
          refine List.mem_cons_of_mem _ ?_
          rw [show ((n + (k' + 1), dist p c') : Nat × ℚ) = (n + 1 + k', dist p c') by
            rw [harith]]
          exact hmem

lemma candidates_lb (dist : Coord → Coord → ℚ) (p : Coord) :
    ∀ (cs : List Temple) (n : Nat) (x : Nat × ℚ),
      x ∈ candidates dist p n cs → n ≤ x.1 := by
  intro cs n x hx
  obtain ⟨k, e, c, _, _, rfl⟩ := (candidates_mem dist p cs n x).1 hx
  simp

lemma candidates_pairwise (dist : Coord → Coord → ℚ) (p : Coord) :
    ∀ (cs : List Temple) (n : Nat),
      (candidates dist p n cs).Pairwise fun a b => a.1 < b.1 := by
  intro cs
  induction cs with
  | nil => intro n; simp [candidates]
  | cons e es ih =>
    intro n
    cases hc : e.coordinate with
    | none => simpa [candidates, hc] using ih (n + 1)
    | some c =>
      rw [show candidates dist p n (e :: es)
            = (n, dist p c) :: candidates dist p (n + 1) es by simp [candidates, hc]]
      refine List.Pairwise.cons ?_ (ih (n + 1))
      intro x hx
      have := candidates_lb dist p es (n + 1) x hx
      omega

lemma candidates_nil_of_none (dist : Coord → Coord → ℚ) (p : Coord) :
    ∀ (cs : List Temple) (n : Nat),
      (∀ e ∈ cs, e.coordinate = none) → candidates dist p n cs = [] := by
  intro cs
  induction cs with
  | nil => intro n _; rfl
  | cons e es ih =>
    intro n h
    have hc : e.coordinate = none := h e (List.mem_cons_self e es)
    have hes : ∀ e' ∈ es, e'.coordinate = none :=
      fun e' he' => h e' (List.mem_cons_of_mem _ he')
    simp [candidates, hc, ih n.succ hes]

/-- Helper fact: `find_nearest_temple` never pairs a present temple with an absent
distance: whenever the scan records an index it also records its minimal
distance. -/
lemma find_nearest_fst_some_snd_some (dist : Coord → Coord → ℚ)
    (point : Option Coord) (catalog : List Temple) :
    (find_nearest_temple dist point catalog).1.isSome →
    (find_nearest_temple dist point catalog).2.isSome := by
  intro h
  cases point with
  | none => simp [find_nearest_temple] at h
  | some p =>
    rw [find_nearest_temple] at h ⊢
    cases hl : nearestLoop dist p 0 none catalog with
    | none => rw [hl] at h; simp at h
    | some y => simp

/-! ### Claims about the nearest-temple search: degenerate inputs -/

/-- C5: `find_nearest_temple` applied to an absent point (for any catalog
and any distance function — no distance computation is attempted) or to an
empty catalog (for any point) returns a pair with both components absent. -/
theorem claim_C5 :
    ∀ (dist : Coord → Coord → ℚ) (catalog : List Temple),
      find_nearest_temple dist none catalog = (none, none) ∧
      ∀ point : Option Coord, find_nearest_temple dist point [] = (none, none) := by
  intro dist catalog
  refine ⟨rfl, ?_⟩
  intro point
  cases point <;> rfl

/-- C1: for every present input coordinate and non-empty catalog all of
whose entries carry a coordinate, `find_nearest_temple` returns the entry
whose distance to the input coordinate is minimal over all catalog entries,
together with that minimal distance, and among entries achieving the
minimum the one with the lowest catalog index is returned.  The external
geodesic distance is the abstract parameter `dist`. -/
theorem claim_C1 :
    ∀ (dist : Coord → Coord → ℚ) (p : Coord) (catalog : List Temple),
      catalog ≠ [] →
      (∀ e ∈ catalog, e.coordinate.isSome) →
      ∃ i, ∃ hi : i < catalog.length, ∃ c : Coord,
        catalog[i].coordinate = some c ∧
        find_nearest_temple dist (some p) catalog = (some catalog[i], some (dist p c)) ∧
        (∀ j, ∀ hj : j < catalog.length, ∀ cj : Coord,
          catalog[j].coordinate = some cj → dist p c ≤ dist p cj) ∧
        (∀ j, ∀ hj : j < catalog.length, ∀ cj : Coord, j < i →
          catalog[j].coordinate = some cj → dist p c < dist p cj) := by
  intro dist p catalog hne hall
  cases catalog with
  | nil => exact absurd rfl hne
  | cons e0 rest =>
  obtain ⟨c0, hc0⟩ := Option.isSome_iff_exists.1 (hall e0 (List.mem_cons_self e0 rest))
  have hcand : candidates dist p 0 (e0 :: rest)
      = (0, dist p c0) :: candidates dist p 1 rest := by simp [candidates, hc0]
  have hsome : (List.foldl step none (candidates dist p 0 (e0 :: rest))).isSome := by
    rw [hcand, List.foldl_cons]
    exact foldl_step_isSome _ _ (by simp [step])
  obtain ⟨y, hy⟩ := Option.isSome_iff_exists.1 hsome
  obtain ⟨i, m⟩ := y
  rcases foldl_step_sound _ _ _ hy with ⟨hb, _⟩ | ⟨pre, post, heq, _, hpre, hpost⟩
  · cases hb
  · have hymem : (i, m) ∈ candidates dist p 0 (e0 :: rest) := by
      rw [heq]
      exact List.mem_append_right _ (List.mem_cons_self _ _)
    obtain ⟨k, e, c, hk, hco, hpair⟩ := (candidates_mem dist p _ 0 _).1 hymem
    have hik : i = 0 + k := congrArg Prod.fst hpair
    have hm : m = dist p c := congrArg Prod.snd hpair
    rw [Nat.zero_add] at hik
    subst hik
    subst hm
    have hilt : i < (e0 :: rest).length := (List.getElem?_eq_some.1 hk).1
    have hgete : (e0 :: rest)[i] = e := (List.getElem?_eq_some.1 hk).2
    have hcomp : find_nearest_temple dist (some p) (e0 :: rest)
        = ((e0 :: rest)[i]?, some (dist p c)) := by
      show (match nearestLoop dist p 0 none (e0 :: rest) with
            | some (i, m) => ((e0 :: rest)[i]?, some m)
            | none => (none, none)) = ((e0 :: rest)[i]?, some (dist p c))
      rw [nearestLoop_eq_foldl, hy]
    refine ⟨i, hilt, c, ?_, ?_, ?_, ?_⟩
    · rw [hgete]
      exact hco
    · rw [hcomp, hk, hgete]
    · intro j hj cj hcoj
      have hjmem : (j, dist p cj) ∈ candidates dist p 0 (e0 :: rest) :=
        (candidates_mem dist p _ 0 _).2
          ⟨j, (e0 :: rest)[j], cj, List.getElem?_eq_getElem hj, hcoj, by simp⟩
      rw [heq] at hjmem
      rcases List.mem_append.1 hjmem with hjpre | hjtail
      · exact le_of_lt (hpre _ hjpre)
      · rcases List.mem_cons.1 hjtail with hjeq | hjpost
        · exact le_of_eq (congrArg Prod.snd hjeq).symm
        · exact hpost _ hjpost
    · intro j hj cj hji hcoj
      have hjmem : (j, dist p cj) ∈ candidates dist p 0 (e0 :: rest) :=
        (candidates_mem dist p _ 0 _).2
          ⟨j, (e0 :: rest)[j], cj, List.getElem?_eq_getElem hj, hcoj, by simp⟩
      rw [heq] at hjmem
      rcases List.mem_append.1 hjmem with hjpre | hjtail
      · exact hpre _ hjpre
      · rcases List.mem_cons.1 hjtail with hjeq | hjpost
        · have : j = i := congrArg Prod.fst hjeq
          omega
        · have hpw := candidates_pairwise dist p (e0 :: rest) 0
          rw [heq] at hpw
          have h2 := (List.pairwise_cons.1 (List.pairwise_append.1 hpw).2.1).1
          have := h2 _ hjpost
          omega

/-- C1 witness: on a concrete two-entry catalog the second entry (index 1,
distance 1) is returned as the strict minimum. -/
theorem claim_C1_witness :
    ∃ i, ∃ hi : i < templesC1w.length, ∃ c : Coord,
      templesC1w[i].coordinate = some c ∧
      find_nearest_temple distC1w (some (0, 0)) templesC1w
        = (some templesC1w[i], some (distC1w (0, 0) c)) ∧
      (∀ j, ∀ hj : j < templesC1w.length, ∀ cj : Coord,
        templesC1w[j].coordinate = some cj → distC1w (0, 0) c ≤ distC1w (0, 0) cj) ∧
      (∀ j, ∀ hj : j < templesC1w.length, ∀ cj : Coord, j < i →
        templesC1w[j].coordinate = some cj → distC1w (0, 0) c < distC1w (0, 0) cj) :=
  claim_C1 distC1w (0, 0) templesC1w (by decide) (by decide)

/-- C10: entries whose coordinate cell is absent are skipped by the scan
and can never be returned as the nearest entry; consequently, on a
non-empty catalog in which every entry's coordinate is absent,
`find_nearest_temple` returns a pair with both fields absent. -/
theorem claim_C10 :
    (∀ (dist : Coord → Coord → ℚ) (point : Option Coord) (catalog : List Temple)
        (e : Temple) (d : ℚ),
        find_nearest_temple dist point catalog = (some e, some d) →
        e.coordinate.isSome) ∧
    (∀ (dist : Coord → Coord → ℚ) (p : Coord) (catalog : List Temple),
        catalog ≠ [] → (∀ e ∈ catalog, e.coordinate = none) →
        find_nearest_temple dist (some p) catalog = (none, none)) := by
  constructor
  · intro dist point catalog e d h
    cases point with
    | none => simp [find_nearest_temple] at h
    | some p =>
      rw [find_nearest_temple] at h
      cases hl : nearestLoop dist p 0 none catalog with
      | none => rw [hl] at h; simp at h
      | some y =>
        obtain ⟨i, m⟩ := y
        rw [hl] at h
        simp only [Prod.mk.injEq] at h
        obtain ⟨h1, _⟩ := h
        rw [nearestLoop_eq_foldl] at hl
        rcases foldl_step_sound _ _ _ hl with ⟨hb, _⟩ | ⟨pre, post, heq, _, _, _⟩
        · cases hb
        · have hymem : (i, m) ∈ candidates dist p 0 catalog := by
            rw [heq]
            exact List.mem_append_right _ (List.mem_cons_self _ _)
          obtain ⟨k, e', c, hk', hco, hpair⟩ := (candidates_mem dist p _ 0 _).1 hymem
          have hik : i = k := by
            have := congrArg Prod.fst hpair
            simpa using this
          subst hik
          rw [hk'] at h1
          obtain rfl : e' = e := by simpa using h1
          simp [hco]
  · intro dist p catalog hne hnone
    rw [find_nearest_temple]
    rw [nearestLoop_eq_foldl, candidates_nil_of_none dist p catalog 0 hnone]
    rfl

/-- C10 witness: the first part applied to a concrete catalog whose single
entry is returned, the second to a concrete all-absent catalog. -/
theorem claim_C10_witness :
    (⟨"丙", "z".toList, "z".toList, some (2, 5)⟩ : Temple).coordinate.isSome ∧
    find_nearest_temple distC10w (some (0, 0)) templesC10b = (none, none) :=
  ⟨claim_C10.1 distC10w (some (0, 0)) templesC10a _ 5 (by decide),
   claim_C10.2 distC10w (0, 0) templesC10b (by decide) (by decide)⟩

/-! ### Lemmas about the batch processor -/

lemma templeInfo_none (dist : Coord → Coord → ℚ) (temples : List Temple) :
    templeInfo dist temples none = none := rfl

lemma zip_map_self {α β γ δ : Type} (g : α → β) (h : β → γ) (mk : α × β × γ → δ) :
    ∀ l : List α,
      (l.zip ((l.map g).zip ((l.map g).map h))).map mk
        = l.map fun r => mk (r, g r, h (g r)) := by
  intro l
  induction l with
  | nil => rfl
  | cons a t ih =>
    simp only [List.map_map] at ih
    simp [List.map_map, ih]

/-- The rows of `result_df`, collapsed: the positional merge of the two
phases equals a single map of `outputRow` over the input records. -/
lemma process_data_out (geo : List Char → GeoResult) (dist : Coord → Coord → ℚ)
    (input : InputTable) (temples : List Temple) :
    (process_data geo dist input temples).2.2
      = input.records.map (outputRow geo dist temples) := by
  have h := zip_map_self (fun r : InputRecord => (geocode_address geo r.address).1)
    (fun sc => templeInfo dist temples sc.2)
    (fun x : InputRecord × (List Char × Option Coord) × Option (Temple × ℚ) =>
      ({ name := x.1.name, address := x.1.address, search_address := x.2.1.1,
         coordinate := x.2.1.2, nearest := x.2.2 } : OutputRecord))
    input.records
  simpa [process_data, outputRow] using h

/-! ### Claims about the batch processor -/

/-- C4: `process_data` on an input of N records returns exactly N output
rows; each output position carries the name and address of the input record
at the same position, so the order is preserved however many geocode calls
fail; an empty input yields an empty output. -/
theorem claim_C4 :
    ∀ (geo : List Char → GeoResult) (dist : Coord → Coord → ℚ)
      (input : InputTable) (temples : List Temple),
      ((process_data geo dist input temples).2.2).length = input.records.length ∧
      (∀ i : Nat,
        ((process_data geo dist input temples).2.2)[i]?.map
            (fun o => (o.name, o.address))
          = input.records[i]?.map fun r => (r.name, r.address)) ∧
      ∀ columns : List String,
        (process_data geo dist ⟨columns, []⟩ temples).2.2 = [] := by
  intro geo dist input temples
  refine ⟨?_, ?_, ?_⟩
  · rw [process_data_out]
    exact List.length_map _ _
  · intro i
    rw [process_data_out, List.getElem?_map]
    cases hr : input.records[i]? with
    | none => simp
    | some r => simp [outputRow]
  · intro columns
    rw [process_data_out]
    rfl

/-- C6: a row whose geocoding fails (no match at both normalization levels,
or a transport/service error — in either case `geocode_address` yields an
absent coordinate) is degraded to an output row with absent coordinate and
all-absent nearest-temple fields, while the batch still produces one output
row per input row. -/
theorem claim_C6 :
    (∀ (geo : List Char → GeoResult) (dist : Coord → Coord → ℚ)
        (input : InputTable) (temples : List Temple) (i : Nat) (r : InputRecord),
        input.records[i]? = some r →
        (geocode_address geo r.address).1.2 = none →
        ((process_data geo dist input temples).2.2)[i]?
          = some { name := r.name, address := r.address,
                   search_address := (geocode_address geo r.address).1.1,
                   coordinate := none, nearest := none }) ∧
    ∀ (geo : List Char → GeoResult) (dist : Coord → Coord → ℚ)
      (input : InputTable) (temples : List Temple),
      ((process_data geo dist input temples).2.2).length = input.records.length := by
  constructor
  · intro geo dist input temples i r hr hnone
    rw [process_data_out, List.getElem?_map, hr]
    simp [outputRow, hnone, templeInfo_none]
  · intro geo dist input temples
    rw [process_data_out]
    exact List.length_map _ _

/-- C6 witness: a single-row table under an always-raising geocoder yields
the degraded output row, and the row count is preserved. -/
theorem claim_C6_witness :
    ((process_data geoErrW distZeroW tableW []).2.2)[0]?
        = some ⟨"A", "x".toList, "x".toList, none, none⟩ ∧
    ((process_data geoErrW distZeroW tableW []).2.2).length
        = tableW.records.length :=
  ⟨claim_C6.1 geoErrW distZeroW tableW [] 0 ⟨"A", "x".toList⟩ (by decide) (by decide),
   claim_C6.2 geoErrW distZeroW tableW []⟩

/-- C9 counterexample: `process_data` adds the 検索住所 and 緯度・経度 columns
to the caller's `input_df` in place (`input_df['検索住所'] = None` and
`input_df['緯度・経度'] = None` mutate the argument), so the caller's table is
not the same after the call. -/
theorem claim_C9_counterexample :
    (process_data geoNoMatchW distZeroW tableW []).1.columns
        = ["地点名", "住所", "検索住所", "緯度・経度"] ∧
    tableW.columns = ["地点名", "住所"] ∧
    (process_data geoNoMatchW distZeroW tableW []).1 ≠ tableW := by
  decide

/-- C9 (amended): `process_data` leaves every name/address value of the
caller's input table unchanged and delivers the per-row results in the
returned output table, but it appends the two columns 検索住所 and
緯度・経度 to the caller's table in place. -/
theorem claim_C9 :
    ∀ (geo : List Char → GeoResult) (dist : Coord → Coord → ℚ)
      (input : InputTable) (temples : List Temple),
      (process_data geo dist input temples).1.records = input.records ∧
      (process_data geo dist input temples).1.columns
        = input.columns ++ ["検索住所", "緯度・経度"] := by
  intro geo dist input temples
  exact ⟨rfl, rfl⟩

/-! ### Claims about rate limiting and the fallback retry -/

/-- C7: `time.sleep(1)` precedes only the FIRST geocode call of each row;
when the first attempt returns no match, the fallback call is issued with
no intervening sleep.  On a one-row batch whose address is a区b and a
geocoder that finds no match, the trace contains two adjacent calls with no
sleep between them, violating the claimed 1-second spacing between every
pair of successive calls. -/
theorem claim_C7_trace :
    process_trace geoNoMatchW tableC7w
      = [Ev.sleep 1, Ev.call "a区b".toList, Ev.call "a区".toList] ∧
    callsSpaced (process_trace geoNoMatchW tableC7w) = false := by
  decide

/-- C8 counterexample: when the first geocode attempt raises a
transport/service error (yielding an absent result), the code takes the
`except` path and does NOT retry with the fallback-normalized address: the
coordinate is absent yet only one service call was made, not two. -/
theorem claim_C8_counterexample :
    (geocode_address geoErrW "abc".toList).1.2 = none ∧
    (geocode_address geoErrW "abc".toList).2.countP isCall = 1 := by
  decide

/-- C8 (amended): whenever the first geocode attempt on the search address
returns NO MATCH (absent without an exception), the fallback-normalized
address is geocoded exactly once more, and the fallback's search string and
coordinate are recorded on success while the original search address with
an absent coordinate is recorded when the fallback also fails; when the
first attempt raises a transport/service error, no fallback call is made
and the search address with an absent coordinate is recorded. -/
theorem claim_C8 :
    (∀ (geo : List Char → GeoResult) (address : List Char),
        geo (normalize address) = GeoResult.noMatch →
        (geocode_address geo address).2
          = [Ev.sleep 1, Ev.call (normalize address),
             Ev.call (subMarkers (normalize address))] ∧
        (geocode_address geo address).1
          = match geo (subMarkers (normalize address)) with
            | GeoResult.found c => (subMarkers (normalize address), some c)
            | GeoResult.noMatch => (normalize address, none)
            | GeoResult.err => (normalize address, none)) ∧
    ∀ (geo : List Char → GeoResult) (address : List Char),
      geo (normalize address) = GeoResult.err →
      (geocode_address geo address).2 = [Ev.sleep 1, Ev.call (normalize address)] ∧
      (geocode_address geo address).1 = (normalize address, none) := by
  constructor
  · intro geo address h
    cases hg : geo (subMarkers (normalize address)) <;>
      simp [geocode_address, h, hg]
  · intro geo address h
    simp [geocode_address, h]

/-- C8 witness: the no-match case on a区b (two calls; both attempts fail,
so the original search string is recorded with an absent coordinate) and
the error case on xyz (a single call). -/
theorem claim_C8_witness :
    ((geocode_address geoNoMatchW "a区b".toList).2
        = [Ev.sleep 1, Ev.call "a区b".toList, Ev.call "a区".toList] ∧
      (geocode_address geoNoMatchW "a区b".toList).1 = ("a区b".toList, none)) ∧
    (geocode_address geoErrW "xyz".toList).2 = [Ev.sleep 1, Ev.call "xyz".toList] ∧
    (geocode_address geoErrW "xyz".toList).1 = ("xyz".toList, none) :=
  ⟨claim_C8.1 geoNoMatchW "a区b".toList rfl,
   claim_C8.2 geoErrW "xyz".toList rfl⟩

end DistanceApp
